import Mathlib

/-!
Shallow embedding of the questdb-go mapping engine (src/model.go, src/tag.go,
src/types.go): the tag parser, schema builder (NewModel / structToFieldSlice),
the serialization pass, the line-protocol encoder (MarshalLine) and the DDL
generator (CreateTableIfNotExistStatement).

Modelling conventions:
- Go runtime values reaching the engine through reflection are modelled by the
  tagged union `GoValue`.  Machine integers are modelled as `Int` (the engine
  only formats them in decimal; it never does arithmetic on them).  float32 and
  float64 values are outside the modelled universe, so the codec branches for
  the qdb types float and double - which accept only float kinds - correctly
  reject every modelled value.  The json branch of the codec (which base64
  encodes the json marshaling of an arbitrary value) is not modelled; no claim
  depends on it.
- `time.Time` is modelled by `GoTime`: the `IsZero` classification together
  with the `UnixNano` instant, which determine every observation the engine
  makes of a time value (`UnixMicro`/`UnixMilli` are floor divisions of
  `UnixNano`).
- A struct instance is a list of (Go field name, qdb tag string, bound value)
  triples; an embedded sub-struct is a `GoValue.strct` of the same shape.
  The reflection plumbing of `NewModel` (TableNamer / CreateTableOptioner /
  toSnakeCase) resolves the table name and the create-table options before the
  field walk; the embedding takes the resolved values as arguments.
- `Model.designatedTS` and `Model.indexFields` hold copies of fields where Go
  holds pointers into the fields slice; the code only ever reads components of
  them (`value`, `qdbName`) that the serialization pass never mutates, so the
  copies observe exactly what the Go aliases observe.
- `strings.Split` is used by the source only with the one-character separators
  ";" and ":"; `goSplitStr` models it for a one-character separator.
-/

namespace QDB

/-- GoTime models a Go `time.Time` value by the two observations the engine
makes of it: the `IsZero` classification and the `UnixNano` instant. -/
structure GoTime where
  isZero : Bool
  unixNano : Int

/-- GoValue is the tagged union of Go runtime values that can reach the mapping
engine through reflection (see the modelling conventions above). -/
inductive GoValue where
  | bool (b : Bool)
  | int8 (n : Int)
  | uint8 (n : Int)
  | int16 (n : Int)
  | uint16 (n : Int)
  | int32 (n : Int)
  | uint32 (n : Int)
  | int64 (n : Int)
  | uint64 (n : Int)
  | int (n : Int)
  | str (s : String)
  | time (t : GoTime)
  | strct (fs : List (String × String × GoValue))
  | ptr (p : Option GoValue)
  | invalid

/-- goValueIsValid models `reflect.Value.IsValid`: only the invalid value
(obtained e.g. from dereferencing a nil pointer) is not valid. -/
def goValueIsValid : GoValue → Bool
  | .invalid => false
  | _ => true

/-- goElem models the single pointer dereference `fieldValue.Elem()` that
`(*Model).serialize` performs when the field value's kind is pointer; a nil
pointer dereferences to the invalid value. -/
def goElem : GoValue → GoValue
  | .ptr (some v) => v
  | .ptr none => .invalid
  | v => v

mutual

/-- goIsZero models `reflect.Value.IsZero` on the modelled value universe:
false, zero numbers, the empty string, the zero time, a struct whose fields are
all zero, and a nil pointer are zero.  (Go panics on an invalid value; the
source only calls `IsZero` behind an `IsValid` check, so the `invalid` case is
unreachable there.) -/
def goIsZero : GoValue → Bool
  | .bool b => !b
  | .int8 n | .uint8 n | .int16 n | .uint16 n | .int32 n | .uint32 n
  | .int64 n | .uint64 n | .int n => n == 0
  | .str s => s == ""
  | .time t => t.isZero
  | .strct l => goIsZeroList l
  | .ptr p => p.isNone
  | .invalid => true

/-- goIsZeroList folds `goIsZero` over the bound values of a struct's fields. -/
def goIsZeroList : List (String × String × GoValue) → Bool
  | [] => true
  | (_, _, v) :: rest => goIsZero v && goIsZeroList rest

end

/-- QuestDBType mirrors `type QuestDBType string` from src/types.go. -/
abbrev QuestDBType := String

/-- qBoolean is the Go constant `Boolean` (the name is prefixed with q because
the Go constant names String, Int, Char and Float collide with Lean types). -/
def qBoolean : QuestDBType := "boolean"

/-- qByte is the Go constant `Byte`. -/
def qByte : QuestDBType := "byte"

/-- qShort is the Go constant `Short`. -/
def qShort : QuestDBType := "short"

/-- qChar is the Go constant `Char`. -/
def qChar : QuestDBType := "char"

/-- qInt is the Go constant `Int`. -/
def qInt : QuestDBType := "int"

/-- qFloat is the Go constant `Float`. -/
def qFloat : QuestDBType := "float"

/-- qSymbol is the Go constant `Symbol`. -/
def qSymbol : QuestDBType := "symbol"

/-- qString is the Go constant `String`. -/
def qString : QuestDBType := "string"

/-- qJSON is the Go constant `JSON`. -/
def qJSON : QuestDBType := "json"

/-- qLong is the Go constant `Long`. -/
def qLong : QuestDBType := "long"

/-- qDate is the Go constant `Date`. -/
def qDate : QuestDBType := "date"

/-- qTimestamp is the Go constant `Timestamp`. -/
def qTimestamp : QuestDBType := "timestamp"

/-- qDouble is the Go constant `Double`. -/
def qDouble : QuestDBType := "double"

/-- qBinary is the Go constant `Binary`. -/
def qBinary : QuestDBType := "binary"

/-- supportedQDBTypes mirrors the `supportedQDBTypes` slice of src/types.go
(long256 and geohash are declared in the source but intentionally left out). -/
def supportedQDBTypes : List QuestDBType :=
  [qBoolean, qByte, qShort, qChar, qInt, qFloat, qSymbol, qString, qLong,
   qDate, qTimestamp, qDouble, qBinary, qJSON]

/-- isValidAndSupportedQuestDBType mirrors the membership scan of
src/types.go. -/
def isValidAndSupportedQuestDBType (s : QuestDBType) : Bool :=
  supportedQDBTypes.contains s

/-- goUnixMicro models `time.Time.UnixMicro`: the floor division of the nano
instant by 1000 (Go computes `unixSec*1e6 + nsec/1e3` with `0 ≤ nsec < 1e9`,
which is exactly the floor). -/
def goUnixMicro (t : GoTime) : Int := t.unixNano.fdiv 1000

/-- goUnixMilli models `time.Time.UnixMilli` the same way. -/
def goUnixMilli (t : GoTime) : Int := t.unixNano.fdiv 1000000

/-- goTypeName gives the Go type name of a modelled value as `fmt`'s %T verb
prints it inside the codec's incompatibility error. -/
def goTypeName : GoValue → String
  | .bool _ => "bool"
  | .int8 _ => "int8"
  | .uint8 _ => "uint8"
  | .int16 _ => "int16"
  | .uint16 _ => "uint16"
  | .int32 _ => "int32"
  | .uint32 _ => "uint32"
  | .int64 _ => "int64"
  | .uint64 _ => "uint64"
  | .int _ => "int"
  | .str _ => "string"
  | .time _ => "time.Time"
  | .strct _ => "struct"
  | .ptr _ => "ptr"
  | .invalid => "<nil>"

/-- base64Chars is the standard base64 alphabet used by
`base64.StdEncoding`. -/
def base64Chars : List Char :=
  "ABCDEFGHIJKLMNOPQRSTUVWXYZabcdefghijklmnopqrstuvwxyz0123456789+/".toList

/-- b64Char looks up one alphabet character. -/
def b64Char (n : Nat) : Char := base64Chars.getD n '='

/-- base64Encode models `base64.StdEncoding.EncodeToString` over a byte
list. -/
def base64Encode : List Nat → String
  | [] => ""
  | [a] =>
    String.mk [b64Char (a / 4), b64Char (a % 4 * 16), '=', '=']
  | [a, b] =>
    String.mk [b64Char (a / 4), b64Char (a % 4 * 16 + b / 16), b64Char (b % 16 * 4), '=']
  | a :: b :: c :: rest =>
    String.mk [b64Char (a / 4), b64Char (a % 4 * 16 + b / 16),
               b64Char (b % 16 * 4 + c / 64), b64Char (c % 64)] ++ base64Encode rest

/-- goStringBytes gives the UTF-8 bytes of a Go string. -/
def goStringBytes (s : String) : List Nat := s.toUTF8.toList.map (fun b => b.toNat)

/-- goBool models `fmt.Sprintf` with the %t verb. -/
def goBool (b : Bool) : String := if b then "true" else "false"

/-- serializeValue embeds `serializeValue` from src/types.go: the switch over
the qdb type, each case matching the accepted runtime kinds of the value.  The
float and double cases of the source accept only float32/float64, which are
outside the modelled value universe, so here every modelled value falls through
to the shared incompatibility error, exactly as in the source.  The json case
(base64 of the json marshaling) is not modelled and is mapped to the shared
error; no claim depends on it.  The `Bytes`/`[]byte` kinds of the binary case
are likewise outside the universe; its string kind is modelled. -/
def serializeValue (v : GoValue) (qdbType : QuestDBType) : Except String String :=
  let incompatible : Except String String :=
    .error ("type " ++ goTypeName v ++ " is not compatible with " ++ qdbType)
  if qdbType = qBoolean then
    match v with
    | .bool b => .ok (goBool b)
    | _ => incompatible
  else if qdbType = qByte then
    match v with
    | .int8 n => .ok (Int.repr n)
    | _ => incompatible
  else if qdbType = qShort then
    match v with
    | .uint8 n | .int8 n | .int16 n => .ok (Int.repr n ++ "i")
    | _ => incompatible
  else if qdbType = qChar then
    match v with
    | .int32 n => .ok (String.mk [Char.ofNat n.toNat])
    | _ => incompatible
  else if qdbType = qInt then
    match v with
    | .uint8 n | .int8 n | .uint16 n | .int16 n | .int32 n => .ok (Int.repr n ++ "i")
    | _ => incompatible
  else if qdbType = qSymbol then
    match v with
    | .str s => .ok s
    | _ => incompatible
  else if qdbType = qString then
    match v with
    | .str s => .ok ("\"" ++ s ++ "\"")
    | _ => incompatible
  else if qdbType = qLong then
    match v with
    | .uint8 n | .int8 n | .uint16 n | .int16 n | .uint32 n | .int32 n
    | .int64 n | .int n => .ok (Int.repr n ++ "i")
    | _ => incompatible
  else if qdbType = qDate then
    match v with
    | .int64 n => .ok (Int.repr n)
    | .time t => .ok (Int.repr (goUnixMilli t))
    | _ => incompatible
  else if qdbType = qTimestamp then
    match v with
    | .int64 n => .ok (Int.repr n ++ "t")
    | .time t => .ok (Int.repr (goUnixMicro t) ++ "t")
    | _ => incompatible
  else if qdbType = qBinary then
    match v with
    | .str s => .ok ("\"" ++ base64Encode (goStringBytes s) ++ "\"")
    | _ => incompatible
  else
    incompatible

/-- goSplitList splits a character list at every occurrence of the separator
character (the split pieces, in order, separators removed). -/
def goSplitList (sep : Char) : List Char → List (List Char)
  | [] => [[]]
  | c :: rest =>
    let r := goSplitList sep rest
    if c = sep then [] :: r
    else
      match r with
      | h :: t => (c :: h) :: t
      | [] => [[c]]

/-- goSplitStr models Go `strings.Split` for a one-character separator (the
only way the source uses it: separators ";" and ":").  Splitting the empty
string yields one empty piece, as in Go. -/
def goSplitStr (sep : Char) (s : String) : List String :=
  (goSplitList sep s.data).map String.mk

/-- TagOptions mirrors the `tagOptions` struct.  The `index` flag does not
appear in src/tag.go, but src/model.go reads `field.tagOptions.index`, so the
flag's declaration lives in a part of the repository that is not under src/.
Modelled from the spec: the option set of a field directive includes an
indexed (bool) flag. -/
structure TagOptions where
  embPre : String := ""
  designatedTS : Bool := false
  commitZeroValue : Bool := false
  index : Bool := false

/-- ensureOptionsAreValid embeds the function of the same name from src/tag.go:
every option segment must split on ":" into exactly two parts; the first
offending segment aborts with an error. -/
def ensureOptionsAreValid : List String → Except String Unit
  | [] => .ok ()
  | v :: rest =>
    if (goSplitStr ':' v).length ≠ 2 then
      .error ("'" ++ v ++ "' is not valid option")
    else ensureOptionsAreValid rest

/-- getOption embeds the function of the same name from src/tag.go: the value
of the first segment whose key matches, or the empty string.  (Go indexes
`vSplit[1]` unconditionally; it is only called after `ensureOptionsAreValid`,
so the index is in range; the embedding uses a default for the out-of-range
case.) -/
def getOption : List String → String → String
  | [], _ => ""
  | v :: rest, option =>
    let vSplit := goSplitStr ':' v
    if option = vSplit.getD 0 "" then vSplit.getD 1 "" else getOption rest option

/-- Field mirrors the `field` struct of src/model.go (the reflect.Type member
is subsumed by the modelled value). -/
structure Field where
  isZero : Bool
  name : String
  qdbName : String
  qdbType : QuestDBType
  value : GoValue
  valueSerialized : String
  tagOptions : TagOptions

/-- makeTagOptions embeds `makeTagOptions` from src/tag.go: extract
embeddedPrefix, the designatedTS flag (rejecting it on a non-timestamp field)
and the commitZeroValue flag.  The final block is Modelled from the spec: the
option key index with value "true" enables the indexed flag (the parsing of
this flag is missing from src/tag.go although src/model.go consumes it). -/
def makeTagOptions (f : Field) (tagsOpts : List String) : Except String TagOptions :=
  let opts0 : TagOptions := {}
  let embPreV := getOption tagsOpts "embeddedPrefix"
  let opts1 := if embPreV ≠ "" then { opts0 with embPre := embPreV } else opts0
  let isDesignatedTSField := getOption tagsOpts "designatedTS"
  if isDesignatedTSField = "true" ∧ f.qdbType ≠ qTimestamp then
    .error "type must be timestamp if 'designatedTS:true' option set"
  else
    let opts2 := if isDesignatedTSField = "true" then { opts1 with designatedTS := true } else opts1
    let commitZeroValueField := getOption tagsOpts "commitZeroValue"
    let opts3 := if commitZeroValueField = "true" then { opts2 with commitZeroValue := true } else opts2
    let indexField := getOption tagsOpts "index"
    let opts4 := if indexField = "true" then { opts3 with index := true } else opts3
    .ok opts4

/-- mkParsedField builds the intermediate `field` literal of
`structToFieldSlice` (before the tag options are attached): the dotted internal
name, the column-prefixed wire name, and the raw type segment of the tag. -/
def mkParsedField (namePre colPre fname tagStr : String) (fval : GoValue) : Field :=
  let tagProps := goSplitStr ';' tagStr
  { isZero := false
    name := namePre ++ fname
    qdbName := colPre ++ tagProps.getD 0 ""
    qdbType := tagProps.getD 1 ""
    value := fval
    valueSerialized := ""
    tagOptions := {} }

/-- subFieldsOf gives the field triples of an embedded sub-struct value,
dereferencing one pointer as the source's recursion does.  (Go's recursion over
a nil or invalid embedded value still walks the static sub-TYPE's fields with
invalid values; the type information has no value-level counterpart here, so
such a value contributes no fields.  No claim depends on that boundary.) -/
def subFieldsOf : GoValue → List (String × String × GoValue)
  | .strct l => l
  | .ptr (some (.strct l)) => l
  | _ => []

set_option linter.unnecessarySeqFocus false in
theorem sizeOf_subFieldsOf (v : GoValue) : sizeOf (subFieldsOf v) ≤ sizeOf v := by
  cases v <;> try (simp [subFieldsOf] <;> omega)
  case ptr p =>
    cases p <;> try (simp [subFieldsOf] <;> omega)
    case some w => cases w <;> simp [subFieldsOf] <;> omega

/-- structToFieldSlice embeds the function of the same name from src/model.go.
Each entry is (Go field name, tag string, bound value); a "-" tag skips the
field; the tag must have at least two ";" segments (wire name, type); option
segments are validated and parsed when present; a non-embedded type must be
supported; an embedded type requires a non-empty embeddedPrefix and splices the
recursively built sub-fields in place, passing the dotted name as the name
prefix and - exactly as the source does - the declared embeddedPrefix alone
(not appended to the current column prefix) as the column prefix. -/
def structToFieldSlice (namePre colPre : String) : List (String × String × GoValue) → Except String (List Field)
  | [] => .ok []
  | (fname, tagStr, fval) :: rest =>
    let fieldName := namePre ++ fname
    if tagStr = "-" then structToFieldSlice namePre colPre rest
    else
      let tagProps := goSplitStr ';' tagStr
      if tagProps.length < 2 then
        .error (fieldName ++ ": invalid tag length (expected 2 to 3 semicolon delimited items but got "
          ++ Nat.repr tagProps.length ++ ")")
      else
        let columnType := tagProps.getD 1 ""
        let f0 := mkParsedField namePre colPre fname tagStr fval
        let optsE : Except String TagOptions :=
          if tagProps.length > 2 then
            match ensureOptionsAreValid (tagProps.drop 2) with
            | .error e => .error (fieldName ++ ": invalid tag: " ++ e)
            | .ok _ =>
              match makeTagOptions f0 (tagProps.drop 2) with
              | .error e => .error (fieldName ++ ": " ++ e)
              | .ok o => .ok o
          else .ok {}
        match optsE with
        | .error e => .error e
        | .ok opts =>
          let f1 := { f0 with tagOptions := opts }
          if columnType ≠ "embedded" ∧ isValidAndSupportedQuestDBType f1.qdbType = false then
            .error (fieldName ++ ": unsupported qdb type " ++ f1.qdbType)
          else if columnType = "embedded" ∧ opts.embPre = "" then
            .error (fieldName ++ ": 'embeddedPrefix' is required if type is embedded")
          else if columnType = "embedded" then
            match structToFieldSlice (f1.name ++ ".") opts.embPre (subFieldsOf fval) with
            | .error e => .error e
            | .ok embedded =>
              match structToFieldSlice namePre colPre rest with
              | .error e => .error e
              | .ok tail => .ok (embedded ++ tail)
          else
            match structToFieldSlice namePre colPre rest with
            | .error e => .error e
            | .ok tail => .ok (f1 :: tail)
  termination_by l => sizeOf l
  decreasing_by
  all_goals simp
  all_goals (first | omega | exact lt_of_le_of_lt (sizeOf_subFieldsOf _) (by omega))

/-- CreateTableOptions mirrors the struct of src/model.go (PartitionOption is a
string). -/
structure CreateTableOptions where
  PartitionBy : String
  MaxUncommittedRows : Int
  CommitLag : String

/-- createTableOptionsString embeds the `String` method of
CreateTableOptions. -/
def createTableOptionsString (c : CreateTableOptions) : String :=
  (if c.PartitionBy ≠ "" then "PARTITION BY " ++ c.PartitionBy ++ " " else "")
  ++ (if c.MaxUncommittedRows ≠ 0 then "WITH maxUncommittedRows=" ++ Int.repr c.MaxUncommittedRows ++ " " else "")
  ++ (if c.CommitLag ≠ "" then
        (if c.MaxUncommittedRows ≠ 0 then ", " else "") ++ "commitLag=" ++ c.CommitLag ++ " "
      else "")

/-- Model mirrors the `Model` struct of src/model.go; `designatedTS` and
`indexFields` hold copies where Go holds pointers into the fields slice (see
the modelling conventions). -/
structure Model where
  tableName : String
  fields : List Field
  indexFields : List Field
  designatedTS : Option Field
  createTableOptions : Option CreateTableOptions

/-- serializeFields embeds the loop body of `(*Model).serialize`: for each
field, dereference one pointer, classify the (possibly invalid) value as zero
(the source only ever sets the flag to true, hence the disjunction with the
previous flag), skip zero fields without commitZeroValue, and otherwise cache
the codec's text, aborting on the first codec error with the field's dotted
name prefixed.  The returned list keeps the in-place updates made before an
abort, exactly as the Go loop mutates the fields it has already visited. -/
def serializeFields : List Field → List Field × Option String
  | [] => ([], none)
  | f :: rest =>
    let fv := goElem f.value
    let isZ := !goValueIsValid fv || goIsZero fv
    let f1 := { f with isZero := f.isZero || isZ }
    if f1.isZero && !f1.tagOptions.commitZeroValue then
      let r := serializeFields rest
      (f1 :: r.1, r.2)
    else
      match serializeValue fv f1.qdbType with
      | .error e => (f1 :: rest, some (f1.name ++ ": " ++ e))
      | .ok s =>
        let r := serializeFields rest
        ({ f1 with valueSerialized := s } :: r.1, r.2)

/-- Model.serialize embeds `(*Model).serialize`: run the pass over the fields
and report the first error, if any. -/
def Model.serialize (m : Model) : Model × Option String :=
  let r := serializeFields m.fields
  ({ m with fields := r.1 }, r.2)

/-- scanDesignatedAndIndex embeds the post-parse loop of `NewModel`: walk the
flat field list once, recording the designated-timestamp field (erroring on a
second one - the check precedes the index check for the same field, as in the
source) and appending each indexed field. -/
def scanDesignatedAndIndex : List Field → Option Field → List Field → Except String (Option Field × List Field)
  | [], dts, idx => .ok (dts, idx)
  | f :: rest, dts, idx =>
    if f.tagOptions.designatedTS then
      match dts with
      | some _ => .error "multiple designated timestamp fields found"
      | none =>
        scanDesignatedAndIndex rest (some f) (if f.tagOptions.index then idx ++ [f] else idx)
    else
      scanDesignatedAndIndex rest dts (if f.tagOptions.index then idx ++ [f] else idx)

/-- NewModel embeds `NewModel` from src/model.go for a struct (or pointer to
struct) input.  The table name (TableNamer override or pluralized snake case)
and the optional CreateTableOptions are resolved by reflection plumbing before
the field walk and are taken here as arguments; `fs` is the struct's field
list.  The walk, the designated-timestamp/index scan and the serialization
pass follow the source, with the source's error wrapping. -/
def NewModel (tableName : String) (createTableOptions : Option CreateTableOptions)
    (fs : List (String × String × GoValue)) : Except String Model :=
  match structToFieldSlice "" "" fs with
  | .error e => .error ("could not parse field: " ++ e)
  | .ok fields =>
    match scanDesignatedAndIndex fields none [] with
    | .error e => .error e
    | .ok di =>
      let m : Model :=
        { tableName := tableName
          fields := fields
          indexFields := di.2
          designatedTS := di.1
          createTableOptions := createTableOptions }
      match Model.serialize m with
      | (m2, none) => .ok m2
      | (_, some e) => .error e

/-- symbolFilter is the per-field condition of `buildSymbols`: a symbol-typed
field that is non-zero or carries commitZeroValue. -/
def symbolFilter (f : Field) : Bool :=
  f.qdbType == qSymbol && (!f.isZero || (f.isZero && f.tagOptions.commitZeroValue))

/-- columnFilter is the per-field condition of `buildColumns`: a
non-symbol-typed field that is non-zero or carries commitZeroValue. -/
def columnFilter (f : Field) : Bool :=
  f.qdbType != qSymbol && (!f.isZero || (f.isZero && f.tagOptions.commitZeroValue))

/-- buildPairsAux embeds the emission loop of `buildSymbols`: append
name=value, then a comma unless the running counter equals length-1. -/
def buildPairsAux (total : Nat) : Nat → List Field → String
  | _, [] => ""
  | n, f :: rest =>
    f.qdbName ++ "=" ++ f.valueSerialized ++ (if n ≠ total - 1 then "," else "")
      ++ buildPairsAux total (n + 1) rest

/-- buildSymbols embeds `(*Model).buildSymbols`. -/
def buildSymbols (m : Model) : String :=
  if m.fields.length = 0 then ""
  else
    let fields := m.fields.filter symbolFilter
    buildPairsAux fields.length 0 fields

/-- buildColumnsAux embeds the emission loop of `buildColumns`: a field
carrying the designatedTS flag is skipped without advancing the counter;
otherwise append name=value and a comma unless the counter equals length-1. -/
def buildColumnsAux (total : Nat) : Nat → List Field → String
  | _, [] => ""
  | n, f :: rest =>
    if f.tagOptions.designatedTS then buildColumnsAux total n rest
    else
      f.qdbName ++ "=" ++ f.valueSerialized ++ (if n ≠ total - 1 then "," else "")
        ++ buildColumnsAux total (n + 1) rest

/-- buildColumns embeds `(*Model).buildColumns`: filter, then run the emission
loop with the counter pre-set to 1 when the model has a designated-timestamp
field (the source's compensation for the field it expects to skip). -/
def buildColumns (m : Model) : String :=
  if m.fields.length = 0 then ""
  else
    let fields := m.fields.filter columnFilter
    buildColumnsAux fields.length (if m.designatedTS.isSome then 1 else 0) fields

/-- buildTimestamp embeds `(*Model).buildTimestamp`: when the model has a
designated-timestamp field whose value is valid, is a time.Time, and is not the
zero time, return its UnixNano instant in decimal; otherwise the empty
string. -/
def buildTimestamp (m : Model) : String :=
  match m.designatedTS with
  | some f =>
    if goValueIsValid f.value then
      match f.value with
      | .time t => if t.isZero = false then Int.repr t.unixNano else ""
      | _ => ""
    else ""
  | none => ""

/-- MarshalLine embeds `(*Model).MarshalLine`: re-run the serialization pass
discarding its error (as the source does), then assemble
table[,symbols][ columns][ timestamp] and a newline, omitting each empty
section.  The Go []byte result is the UTF-8 text returned here. -/
def MarshalLine (m : Model) : String :=
  let m2 := (Model.serialize m).1
  let symbolsString := buildSymbols m2
  let columnsString := buildColumns m2
  let timestampString := buildTimestamp m2
  m2.tableName
    ++ (if symbolsString ≠ "" then "," ++ symbolsString else "")
    ++ (if columnsString ≠ "" then " " ++ columnsString else "")
    ++ (if timestampString ≠ "" then " " ++ timestampString else "")
    ++ "\n"

/-- ddlTypeOf is the column-type substitution of the DDL generator: binary and
json columns are declared as string. -/
def ddlTypeOf (f : Field) : QuestDBType :=
  if f.qdbType = qBinary ∨ f.qdbType = qJSON then qString else f.qdbType

/-- ddlColsAux embeds the column-definition loop of
`CreateTableIfNotExistStatement`. -/
def ddlColsAux (total : Nat) : Nat → List Field → String
  | _, [] => ""
  | i, f :: rest =>
    "\"" ++ f.qdbName ++ "\" " ++ ddlTypeOf f ++ (if i ≠ total - 1 then ", " else "")
      ++ ddlColsAux total (i + 1) rest

/-- indexClauseAux embeds the index-clause loop of
`CreateTableIfNotExistStatement`: comma-space between clauses, a space after
the last. -/
def indexClauseAux (total : Nat) : Nat → List Field → String
  | _, [] => ""
  | i, f :: rest =>
    "index(" ++ f.qdbName ++ ")" ++ (if i ≠ total - 1 then ", " else " ")
      ++ indexClauseAux total (i + 1) rest

/-- CreateTableIfNotExistStatement embeds the method of the same name from
src/model.go. -/
def CreateTableIfNotExistStatement (m : Model) : String :=
  "CREATE TABLE IF NOT EXISTS \"" ++ m.tableName ++ "\" ( "
    ++ ddlColsAux m.fields.length 0 m.fields
    ++ (if m.designatedTS.isNone then ", \"timestamp\" timestamp" else "")
    ++ " ) "
    ++ (if m.indexFields.length > 0 then ", " ++ indexClauseAux m.indexFields.length 0 m.indexFields else "")
    ++ (match m.designatedTS with
        | none => "timestamp(timestamp) "
        | some f => "timestamp(" ++ f.qdbName ++ ") ")
    ++ (match m.createTableOptions with
        | some o => createTableOptionsString o
        | none => "")
    ++ ";"

/-- goPair is the name=value text of one field, as each emission loop renders
it. -/
def goPair (f : Field) : String := f.qdbName ++ "=" ++ f.valueSerialized

/-- idxItem is the index clause text of one indexed field. -/
def idxItem (f : Field) : String := "index(" ++ f.qdbName ++ ")"

/-- joinWith is the specification-side join: the per-field texts separated by
the separator, in order, with no leading or trailing separator. -/
def joinWith (sep : String) (g : Field → String) : List Field → String
  | [] => ""
  | [f] => g f
  | f :: rest => g f ++ sep ++ joinWith sep g rest

/-- isNonZeroTimeValue classifies the designated-timestamp observations of
`buildTimestamp`: a time.Time value that is not the zero time. -/
def isNonZeroTimeValue : GoValue → Bool
  | .time t => !t.isZero
  | _ => false

/-- zeroAfterElem is the zero classification `(*Model).serialize` computes for
a bound value: dereference one pointer, then invalid-or-zero. -/
def zeroAfterElem (v : GoValue) : Bool :=
  !goValueIsValid (goElem v) || goIsZero (goElem v)

/-- serializedOf is the model after the serialization pass that MarshalLine
performs first (its error discarded, as in the source). -/
def serializedOf (m : Model) : Model := (Model.serialize m).1

/-- intPayload extracts the integer carried by a value of one of Go's integer
kinds. -/
def intPayload : GoValue → Option Int
  | .int8 n | .uint8 n | .int16 n | .uint16 n | .int32 n | .uint32 n
  | .int64 n | .uint64 n | .int n => some n
  | _ => none

/-- c1Input is the end-to-end scenario record of the spec: Name "Ahmad"
(string), Email "ahmad@x.io" (symbol), Age 29 (int), no designated
timestamp. -/
def c1Input : List (String × String × GoValue) :=
  [("Name", "Name;string", .str "Ahmad"),
   ("Email", "Email;symbol", .str "ahmad@x.io"),
   ("Age", "Age;int", .int32 29)]

/-- fC1Name is the parsed Name field of the scenario record. -/
def fC1Name : Field :=
  { isZero := false, name := "Name", qdbName := "Name", qdbType := "string",
    value := .str "Ahmad", valueSerialized := "", tagOptions := {} }

/-- fC1Email is the parsed Email field of the scenario record. -/
def fC1Email : Field :=
  { isZero := false, name := "Email", qdbName := "Email", qdbType := "symbol",
    value := .str "ahmad@x.io", valueSerialized := "", tagOptions := {} }

/-- fC1Age is the parsed Age field of the scenario record. -/
def fC1Age : Field :=
  { isZero := false, name := "Age", qdbName := "Age", qdbType := "int",
    value := .int32 29, valueSerialized := "", tagOptions := {} }

/-- mC1 is the model NewModel builds for the scenario record (fields already
carrying their serialized texts). -/
def mC1 : Model :=
  { tableName := "users",
    fields := [{ fC1Name with valueSerialized := "\"Ahmad\"" },
               { fC1Email with valueSerialized := "ahmad@x.io" },
               { fC1Age with valueSerialized := "29i" }],
    indexFields := [], designatedTS := none, createTableOptions := none }

/-- fC2ts is a designated-timestamp field bound to the non-zero time instant
1500000ns (= 1500us) past the epoch. -/
def fC2ts : Field :=
  { isZero := false, name := "Birthday", qdbName := "bd", qdbType := "timestamp",
    value := .time { isZero := false, unixNano := 1500000 }, valueSerialized := "",
    tagOptions := { designatedTS := true } }

/-- mC2 is a model whose only field is the designated-timestamp field fC2ts. -/
def mC2 : Model :=
  { tableName := "events", fields := [fC2ts], indexFields := [],
    designatedTS := some fC2ts, createTableOptions := none }

/-- fC3ts is a designated-timestamp field bound to the zero time (and without
commitZeroValue). -/
def fC3ts : Field :=
  { isZero := false, name := "Birthday", qdbName := "bd", qdbType := "timestamp",
    value := .time { isZero := true, unixNano := 0 }, valueSerialized := "",
    tagOptions := { designatedTS := true } }

/-- fC3a is a non-zero int column field named a. -/
def fC3a : Field :=
  { isZero := false, name := "A", qdbName := "a", qdbType := "int",
    value := .int32 1, valueSerialized := "", tagOptions := {} }

/-- fC3b is a non-zero int column field named b. -/
def fC3b : Field :=
  { isZero := false, name := "B", qdbName := "b", qdbType := "int",
    value := .int32 2, valueSerialized := "", tagOptions := {} }

/-- mC3 is a model with a zero-valued designated-timestamp field and two
ordinary columns; it exhibits the comma slip of buildColumns. -/
def mC3 : Model :=
  { tableName := "t", fields := [fC3ts, fC3a, fC3b], indexFields := [],
    designatedTS := some fC3ts, createTableOptions := none }

/-- fC4a is a zero-valued int field without commitZeroValue (its zero flag
already set, as the serialization pass leaves it). -/
def fC4a : Field :=
  { isZero := true, name := "A", qdbName := "a", qdbType := "int",
    value := .int32 0, valueSerialized := "", tagOptions := {} }

/-- fC4b is a zero-valued int field with commitZeroValue (its cached text
already filled, as the serialization pass leaves it). -/
def fC4b : Field :=
  { isZero := true, name := "B", qdbName := "b", qdbType := "int",
    value := .int32 0, valueSerialized := "0i", tagOptions := { commitZeroValue := true } }

/-- mC4 is a model with one zero field of each commitZeroValue polarity. -/
def mC4 : Model :=
  { tableName := "t", fields := [fC4a, fC4b], indexFields := [],
    designatedTS := none, createTableOptions := none }

/-- c5Input is a record with one indexed symbol field and one int field. -/
def c5Input : List (String × String × GoValue) :=
  [("A", "a;symbol;index:true", .str "x"),
   ("B", "b;int", .int32 2)]

/-- fC5a is the parsed indexed symbol field of c5Input. -/
def fC5a : Field :=
  { isZero := false, name := "A", qdbName := "a", qdbType := "symbol",
    value := .str "x", valueSerialized := "", tagOptions := { index := true } }

/-- fC5b is the parsed int field of c5Input. -/
def fC5b : Field :=
  { isZero := false, name := "B", qdbName := "b", qdbType := "int",
    value := .int32 2, valueSerialized := "", tagOptions := {} }

/-- mC5 is the model NewModel builds for c5Input: the fields carry their
serialized texts while indexFields keeps the copy recorded before the
serialization pass. -/
def mC5 : Model :=
  { tableName := "t",
    fields := [{ fC5a with valueSerialized := "x" },
               { fC5b with valueSerialized := "2i" }],
    indexFields := [fC5a], designatedTS := none, createTableOptions := none }

/-- c6Input is a record with two designated-timestamp fields. -/
def c6Input : List (String × String × GoValue) :=
  [("A", "a;timestamp;designatedTS:true", .time { isZero := false, unixNano := 5 }),
   ("B", "b;timestamp;designatedTS:true", .time { isZero := false, unixNano := 6 })]

/-- c7Input is a doubly nested embedding: X (column prefix a_) contains Y
(column prefix b_) contains the long field Z with wire name z. -/
def c7Input : List (String × String × GoValue) :=
  [("X", "x;embedded;embeddedPrefix:a_", .strct
     [("Y", "y;embedded;embeddedPrefix:b_", .strct
        [("Z", "z;long", .int64 1)])])]

/-- fC10ts is a designated-timestamp field bound to an int64 epoch offset
rather than a time.Time value. -/
def fC10ts : Field :=
  { isZero := false, name := "TS", qdbName := "ts", qdbType := "timestamp",
    value := .int64 777, valueSerialized := "", tagOptions := { designatedTS := true } }

/-- fC10a is a non-zero int column field named a. -/
def fC10a : Field :=
  { isZero := false, name := "A", qdbName := "a", qdbType := "int",
    value := .int32 1, valueSerialized := "", tagOptions := {} }

/-- mC10 is a model whose designated-timestamp field is bound to an int64
value. -/
def mC10 : Model :=
  { tableName := "t", fields := [fC10ts, fC10a], indexFields := [],
    designatedTS := some fC10ts, createTableOptions := none }

end QDB

namespace QDB

theorem toDigitsCore_ne_nil (b : Nat) :
    ∀ (fuel n : Nat) (ds : List Char), fuel ≠ 0 ∨ ds ≠ [] →
      Nat.toDigitsCore b fuel n ds ≠ [] := by
  intro fuel
  induction fuel with
  | zero =>
    intro n ds h
    simp only [Nat.toDigitsCore]
    rcases h with h | h
    · exact absurd rfl h
    · exact h
  | succ fuel ih =>
    intro n ds _
    simp only [Nat.toDigitsCore]
    split
    · exact List.cons_ne_nil _ _
    · exact ih _ _ (Or.inr (List.cons_ne_nil _ _))

theorem natRepr_ne_empty (n : Nat) : Nat.repr n ≠ "" := by
  have h := toDigitsCore_ne_nil 10 (n + 1) n [] (Or.inl (Nat.succ_ne_zero n))
  simp only [Nat.repr, Nat.toDigits, List.asString]
  intro hc
  exact h (congrArg String.data hc)

theorem intRepr_ne_empty (i : Int) : Int.repr i ≠ "" := by
  cases i with
  | ofNat m => simpa [Int.repr] using natRepr_ne_empty m
  | negSucc m =>
    simp only [Int.repr]
    intro h
    have hl := congrArg String.length h
    rw [String.length_append] at hl
    have h1 : ("-" : String).length = 1 := rfl
    have h0 : ("" : String).length = 0 := rfl
    omega

theorem buildPairsAux_eq_joinWith :
    ∀ (fs : List Field) (n total : Nat), total = n + fs.length →
      buildPairsAux total n fs = joinWith "," goPair fs := by
  intro fs
  induction fs with
  | nil => intro n total _; rfl
  | cons f rest ih =>
    intro n total h
    cases rest with
    | nil =>
      have hlast : ¬ n ≠ total - 1 := by
        simp only [List.length_cons, List.length_nil] at h; omega
      calc buildPairsAux total n [f]
          = goPair f ++ (if n ≠ total - 1 then "," else "") ++ buildPairsAux total (n + 1) [] := rfl
        _ = goPair f ++ "" ++ "" := by rw [if_neg hlast]; rfl
        _ = joinWith "," goPair [f] := by simp [joinWith]
    | cons g gs =>
      have hmid : n ≠ total - 1 := by
        simp only [List.length_cons] at h; omega
      have hrec := ih (n + 1) total (by simp only [List.length_cons] at h ⊢; omega)
      calc buildPairsAux total n (f :: g :: gs)
          = goPair f ++ (if n ≠ total - 1 then "," else "")
              ++ buildPairsAux total (n + 1) (g :: gs) := rfl
        _ = goPair f ++ "," ++ joinWith "," goPair (g :: gs) := by rw [if_pos hmid, hrec]
        _ = joinWith "," goPair (f :: g :: gs) := rfl

theorem indexClauseAux_eq_joinWith :
    ∀ (fs : List Field) (n total : Nat), fs ≠ [] → total = n + fs.length →
      indexClauseAux total n fs = joinWith ", " idxItem fs ++ " " := by
  intro fs
  induction fs with
  | nil => intro n total h _; exact absurd rfl h
  | cons f rest ih =>
    intro n total _ h
    cases rest with
    | nil =>
      have hlast : ¬ n ≠ total - 1 := by
        simp only [List.length_cons, List.length_nil] at h; omega
      calc indexClauseAux total n [f]
          = idxItem f ++ (if n ≠ total - 1 then ", " else " ") ++ indexClauseAux total (n + 1) [] := rfl
        _ = idxItem f ++ " " ++ "" := by rw [if_neg hlast]; rfl
        _ = joinWith ", " idxItem [f] ++ " " := by simp [joinWith]
    | cons g gs =>
      have hmid : n ≠ total - 1 := by
        simp only [List.length_cons] at h; omega
      have hrec := ih (n + 1) total (List.cons_ne_nil g gs)
        (by simp only [List.length_cons] at h ⊢; omega)
      calc indexClauseAux total n (f :: g :: gs)
          = idxItem f ++ (if n ≠ total - 1 then ", " else " ")
              ++ indexClauseAux total (n + 1) (g :: gs) := rfl
        _ = idxItem f ++ ", " ++ (joinWith ", " idxItem (g :: gs) ++ " ") := by rw [if_pos hmid, hrec]
        _ = joinWith ", " idxItem (f :: g :: gs) ++ " " := by
            simp [joinWith, String.append_assoc]

theorem buildColumnsAux_skip_designated (total : Nat) :
    ∀ (fs : List Field) (n : Nat),
      buildColumnsAux total n fs
        = buildColumnsAux total n (fs.filter (fun f => !f.tagOptions.designatedTS)) := by
  intro fs
  induction fs with
  | nil => intro n; rfl
  | cons f rest ih =>
    intro n
    by_cases hf : f.tagOptions.designatedTS
    · have e1 : buildColumnsAux total n (f :: rest) = buildColumnsAux total n rest := by
        show (if f.tagOptions.designatedTS then _ else _) = _
        rw [if_pos hf]
      have e2 : (f :: rest).filter (fun g => !g.tagOptions.designatedTS)
          = rest.filter (fun g => !g.tagOptions.designatedTS) := by
        simp [List.filter_cons, hf]
      rw [e1, e2, ih]
    · have e1 : buildColumnsAux total n (f :: rest)
          = f.qdbName ++ "=" ++ f.valueSerialized ++ (if n ≠ total - 1 then "," else "")
            ++ buildColumnsAux total (n + 1) rest := by
        show (if f.tagOptions.designatedTS then _ else _) = _
        rw [if_neg hf]
      have e2 : (f :: rest).filter (fun g => !g.tagOptions.designatedTS)
          = f :: rest.filter (fun g => !g.tagOptions.designatedTS) := by
        simp [List.filter_cons, hf]
      rw [e1, e2, ih]
      show _ = (if f.tagOptions.designatedTS then _ else _)
      rw [if_neg hf]

theorem buildColumnsAux_eq_pairs (total : Nat) :
    ∀ (fs : List Field) (n : Nat), (∀ f ∈ fs, f.tagOptions.designatedTS = false) →
      buildColumnsAux total n fs = buildPairsAux total n fs := by
  intro fs
  induction fs with
  | nil => intro n _; rfl
  | cons f rest ih =>
    intro n h
    have hf : f.tagOptions.designatedTS = false := h f (List.mem_cons_self f rest)
    have e1 : buildColumnsAux total n (f :: rest)
        = f.qdbName ++ "=" ++ f.valueSerialized ++ (if n ≠ total - 1 then "," else "")
          ++ buildColumnsAux total (n + 1) rest := by
      show (if f.tagOptions.designatedTS then _ else _) = _
      rw [if_neg (by simp [hf])]
    rw [e1, ih (n + 1) (fun g hg => h g (List.mem_cons_of_mem f hg))]
    rfl

theorem serialize_preserves_shape (m : Model) :
    ((Model.serialize m).1).tableName = m.tableName
      ∧ ((Model.serialize m).1).designatedTS = m.designatedTS
      ∧ ((Model.serialize m).1).indexFields = m.indexFields
      ∧ ((Model.serialize m).1).fields = (serializeFields m.fields).1 := by
  refine ⟨rfl, rfl, rfl, rfl⟩

theorem serializeFields_mem_zero :
    ∀ (fs : List Field), (serializeFields fs).2 = none →
      ∀ f ∈ (serializeFields fs).1, zeroAfterElem f.value = true → f.isZero = true := by
  intro fs
  induction fs with
  | nil => intro _ f hf; simp [serializeFields] at hf
  | cons g rest ih =>
    intro hnone f hf hz
    simp only [serializeFields] at hnone hf
    by_cases hskip :
        (g.isZero || (!goValueIsValid (goElem g.value) || goIsZero (goElem g.value)))
          && !g.tagOptions.commitZeroValue
    · rw [if_pos hskip] at hnone hf
      rcases List.mem_cons.mp hf with hf1 | hf2
      · subst hf1
        simp only [zeroAfterElem] at hz
        simp [hz]
      · exact ih hnone f hf2 hz
    · rw [if_neg hskip] at hnone hf
      rcases hok : serializeValue (goElem g.value) g.qdbType with e | s
      · rw [hok] at hnone; simp at hnone
      · rw [hok] at hnone hf
        simp only at hnone hf
        rcases List.mem_cons.mp hf with hf1 | hf2
        · subst hf1
          simp only [zeroAfterElem] at hz
          simp [hz]
        · exact ih hnone f hf2 hz

end QDB


namespace QDB

theorem serializedOf_designatedTS (m : Model) : (serializedOf m).designatedTS = m.designatedTS := rfl

theorem serializedOf_fields (m : Model) : (serializedOf m).fields = (serializeFields m.fields).1 := rfl

theorem marshalLine_shape (m : Model) :
    MarshalLine m = (serializedOf m).tableName
      ++ (if buildSymbols (serializedOf m) ≠ "" then "," ++ buildSymbols (serializedOf m) else "")
      ++ (if buildColumns (serializedOf m) ≠ "" then " " ++ buildColumns (serializedOf m) else "")
      ++ (if buildTimestamp (serializedOf m) ≠ "" then " " ++ buildTimestamp (serializedOf m) else "")
      ++ "\n" := rfl

theorem marshalLine_no_ts (m : Model) (h : buildTimestamp (serializedOf m) = "") :
    MarshalLine m = (serializedOf m).tableName
      ++ (if buildSymbols (serializedOf m) ≠ "" then "," ++ buildSymbols (serializedOf m) else "")
      ++ (if buildColumns (serializedOf m) ≠ "" then " " ++ buildColumns (serializedOf m) else "")
      ++ "\n" := by
  rw [marshalLine_shape, h]
  simp

theorem marshalLine_with_ts (m : Model) (s : String)
    (h : buildTimestamp (serializedOf m) = s) (hs : s ≠ "") :
    MarshalLine m = (serializedOf m).tableName
      ++ (if buildSymbols (serializedOf m) ≠ "" then "," ++ buildSymbols (serializedOf m) else "")
      ++ (if buildColumns (serializedOf m) ≠ "" then " " ++ buildColumns (serializedOf m) else "")
      ++ " " ++ s ++ "\n" := by
  rw [marshalLine_shape, h, if_pos hs]
  simp [String.append_assoc]

theorem buildColumns_eq_filtered (m : Model) :
    buildColumns m
      = buildColumnsAux (m.fields.filter columnFilter).length
          (if m.designatedTS.isSome then 1 else 0)
          ((m.fields.filter columnFilter).filter (fun g => !g.tagOptions.designatedTS)) := by
  simp only [buildColumns]
  split
  · next h =>
    have he : m.fields = [] := List.length_eq_zero.mp h
    rw [he]
    rfl
  · exact buildColumnsAux_skip_designated _ _ _

theorem buildSymbols_eq_joinWith (m : Model) :
    buildSymbols m = joinWith "," goPair (m.fields.filter symbolFilter) := by
  simp only [buildSymbols]
  split
  · next h =>
    have he : m.fields = [] := List.length_eq_zero.mp h
    rw [he]
    rfl
  · exact buildPairsAux_eq_joinWith _ 0 _ (by omega)

theorem scan_acc_index :
    ∀ (fs : List Field) (dts : Option Field) (acc : List Field) (d : Option Field) (i : List Field),
      scanDesignatedAndIndex fs dts acc = .ok (d, i) →
      i = acc ++ fs.filter (fun f => f.tagOptions.index) := by
  intro fs
  induction fs with
  | nil =>
    intro dts acc d i h
    simp only [scanDesignatedAndIndex, Except.ok.injEq, Prod.mk.injEq] at h
    simp [← h.2]
  | cons f rest ih =>
    intro dts acc d i h
    simp only [scanDesignatedAndIndex] at h
    by_cases hf : f.tagOptions.designatedTS
    · rw [if_pos hf] at h
      cases dts with
      | some g => simp at h
      | none =>
        have := ih (some f) _ d i h
        by_cases hidx : f.tagOptions.index
        · rw [if_pos hidx] at this
          simp [this, List.filter_cons, hidx]
        · rw [if_neg hidx] at this
          simp [this, List.filter_cons, hidx]
    · rw [if_neg hf] at h
      have := ih dts _ d i h
      by_cases hidx : f.tagOptions.index
      · rw [if_pos hidx] at this
        simp [this, List.filter_cons, hidx]
      · rw [if_neg hidx] at this
        simp [this, List.filter_cons, hidx]

theorem scan_dup_error :
    ∀ (fs : List Field) (dts : Option Field) (acc : List Field),
      ((dts.isSome = true ∧ 1 ≤ (fs.filter (fun f => f.tagOptions.designatedTS)).length)
        ∨ 2 ≤ (fs.filter (fun f => f.tagOptions.designatedTS)).length) →
      scanDesignatedAndIndex fs dts acc = .error "multiple designated timestamp fields found" := by
  intro fs
  induction fs with
  | nil =>
    intro dts acc h
    simp only [List.filter_nil, List.length_nil] at h
    rcases h with ⟨_, h⟩ | h <;> omega
  | cons f rest ih =>
    intro dts acc h
    simp only [scanDesignatedAndIndex]
    by_cases hf : f.tagOptions.designatedTS
    · rw [if_pos hf]
      cases dts with
      | some g => rfl
      | none =>
        apply ih
        left
        refine ⟨rfl, ?_⟩
        rcases h with ⟨hs, _⟩ | h
        · simp at hs
        · simp only [List.filter_cons, hf, if_pos, List.length_cons] at h
          omega
    · rw [if_neg hf]
      apply ih
      simp only [List.filter_cons, hf] at h
      simpa using h

theorem scan_le_one_ok :
    ∀ (fs : List Field) (dts : Option Field) (acc : List Field),
      ((dts = none ∧ (fs.filter (fun f => f.tagOptions.designatedTS)).length ≤ 1)
        ∨ (dts.isSome = true ∧ (fs.filter (fun f => f.tagOptions.designatedTS)).length = 0)) →
      ∃ d i, scanDesignatedAndIndex fs dts acc = .ok (d, i) := by
  intro fs
  induction fs with
  | nil => intro dts acc _; exact ⟨dts, acc, rfl⟩
  | cons f rest ih =>
    intro dts acc h
    simp only [scanDesignatedAndIndex]
    by_cases hf : f.tagOptions.designatedTS
    · rw [if_pos hf]
      rcases h with ⟨hn, hle⟩ | ⟨hs, hz⟩
      · subst hn
        apply ih
        right
        refine ⟨rfl, ?_⟩
        simp only [List.filter_cons, hf, if_pos, List.length_cons] at hle
        omega
      · exfalso
        simp only [List.filter_cons, hf, if_pos, List.length_cons] at hz
        omega
    · rw [if_neg hf]
      apply ih
      simp only [List.filter_cons, hf] at h
      simpa using h

theorem serializeFields_index_names :
    ∀ fs : List Field,
      (((serializeFields fs).1).filter (fun g => g.tagOptions.index)).map (fun g => g.qdbName)
        = (fs.filter (fun g => g.tagOptions.index)).map (fun g => g.qdbName) := by
  intro fs
  induction fs with
  | nil => rfl
  | cons f rest ih =>
    simp only [serializeFields]
    by_cases hskip :
        (f.isZero || (!goValueIsValid (goElem f.value) || goIsZero (goElem f.value)))
          && !f.tagOptions.commitZeroValue
    · rw [if_pos hskip]
      simp only [List.filter_cons]
      by_cases hidx : f.tagOptions.index <;> simp [hidx, ih]
    · rw [if_neg hskip]
      rcases hok : serializeValue (goElem f.value) f.qdbType with e | s
      · simp only [List.filter_cons]
        by_cases hidx : f.tagOptions.index <;> simp [hidx]
      · simp only [List.filter_cons]
        by_cases hidx : f.tagOptions.index <;> simp [hidx, ih]

theorem ensure_bad_mem :
    ∀ (l : List String) (seg : String), seg ∈ l → (goSplitStr ':' seg).length ≠ 2 →
      ∃ e, ensureOptionsAreValid l = .error e := by
  intro l
  induction l with
  | nil => intro seg hm; simp at hm
  | cons v rest ih =>
    intro seg hm hbad
    by_cases hv : (goSplitStr ':' v).length ≠ 2
    · exact ⟨"'" ++ v ++ "' is not valid option", by simp [ensureOptionsAreValid, hv]⟩
    · rcases List.mem_cons.mp hm with h1 | h2
      · subst h1; exact absurd hbad hv
      · rcases ih seg h2 hbad with ⟨e, he⟩
        exact ⟨e, by simp [ensureOptionsAreValid, hv, he]⟩

theorem serializeValue_int64_timestamp (n : Int) :
    serializeValue (.int64 n) qTimestamp = .ok (Int.repr n ++ "t") := rfl

end QDB

namespace QDB

theorem c1_parse : structToFieldSlice "" "" c1Input = .ok [fC1Name, fC1Email, fC1Age] := by
  have hsA : goSplitStr ';' "Name;string" = ["Name", "string"] := rfl
  have hsB : goSplitStr ';' "Email;symbol" = ["Email", "symbol"] := rfl
  have hsC : goSplitStr ';' "Age;int" = ["Age", "int"] := rfl
  simp [c1Input, structToFieldSlice, mkParsedField, hsA, hsB, hsC, fC1Name, fC1Email, fC1Age,
    isValidAndSupportedQuestDBType, supportedQDBTypes, qBoolean, qByte, qShort, qChar,
    qInt, qFloat, qSymbol, qString, qJSON, qLong, qDate, qTimestamp, qDouble, qBinary]

theorem c1_scan : scanDesignatedAndIndex [fC1Name, fC1Email, fC1Age] none [] = .ok (none, []) := by
  simp [scanDesignatedAndIndex, fC1Name, fC1Email, fC1Age]

theorem c1_serialize :
    serializeFields [fC1Name, fC1Email, fC1Age]
      = ([{ fC1Name with valueSerialized := "\"Ahmad\"" },
          { fC1Email with valueSerialized := "ahmad@x.io" },
          { fC1Age with valueSerialized := "29i" }], none) := by
  have h1 : serializeValue (.str "Ahmad") "string" = .ok "\"Ahmad\"" := rfl
  have h2 : serializeValue (.str "ahmad@x.io") "symbol" = .ok "ahmad@x.io" := rfl
  have h3 : serializeValue (.int32 29) "int" = .ok "29i" := rfl
  simp [serializeFields, fC1Name, fC1Email, fC1Age, goElem, goValueIsValid, goIsZero, h1, h2, h3]

theorem c1_reserialize : serializeFields mC1.fields = (mC1.fields, none) := by
  have h1 : serializeValue (.str "Ahmad") "string" = .ok "\"Ahmad\"" := rfl
  have h2 : serializeValue (.str "ahmad@x.io") "symbol" = .ok "ahmad@x.io" := rfl
  have h3 : serializeValue (.int32 29) "int" = .ok "29i" := rfl
  simp [serializeFields, mC1, fC1Name, fC1Email, fC1Age, goElem, goValueIsValid, goIsZero,
    h1, h2, h3]

/-- C1: for a record with fields Name "Ahmad" (string), Email "ahmad@x.io"
(symbol) and Age 29 (int), no designated-timestamp field and table name
"users", NewModel succeeds, MarshalLine returns exactly the expected line
followed by a newline, and CreateTableIfNotExistStatement returns exactly the
expected create table statement. -/
theorem claim_C1 :
    NewModel "users" none c1Input = .ok mC1
    ∧ MarshalLine mC1 = "users,Email=ahmad@x.io Name=\"Ahmad\",Age=29i\n"
    ∧ CreateTableIfNotExistStatement mC1
        = "CREATE TABLE IF NOT EXISTS \"users\" ( \"Name\" string, \"Email\" symbol, \"Age\" int, \"timestamp\" timestamp ) timestamp(timestamp) ;" := by
  refine ⟨?_, ?_, ?_⟩
  · rw [NewModel, c1_parse]
    simp only [c1_scan, Model.serialize, c1_serialize]
    rfl
  · have hso : serializedOf mC1 = { mC1 with fields := mC1.fields } := by
      simp only [serializedOf, Model.serialize, c1_reserialize]
    rw [marshalLine_shape, hso]
    rfl
  · rfl

/-- C2 (amended): for every model with a designated-timestamp field bound to a
non-zero time value, the rendered line ends with a trailing bare timestamp
token that is the raw epoch-NANOsecond value (UnixNano) - no t marker, no
name= prefix - and the column section is built from the filtered fields with
every designatedTS-flagged field excluded; for every model without a
designated-timestamp field the line carries no timestamp token at all. -/
theorem claim_C2 (m : Model) :
    (∀ (f : Field) (t : GoTime), m.designatedTS = some f → f.value = .time t → t.isZero = false →
      buildTimestamp (serializedOf m) = Int.repr t.unixNano
      ∧ MarshalLine m = (serializedOf m).tableName
          ++ (if buildSymbols (serializedOf m) ≠ "" then "," ++ buildSymbols (serializedOf m) else "")
          ++ (if buildColumns (serializedOf m) ≠ "" then " " ++ buildColumns (serializedOf m) else "")
          ++ " " ++ Int.repr t.unixNano ++ "\n")
    ∧ (m.designatedTS = none →
      buildTimestamp (serializedOf m) = ""
      ∧ MarshalLine m = (serializedOf m).tableName
          ++ (if buildSymbols (serializedOf m) ≠ "" then "," ++ buildSymbols (serializedOf m) else "")
          ++ (if buildColumns (serializedOf m) ≠ "" then " " ++ buildColumns (serializedOf m) else "")
          ++ "\n")
    ∧ buildColumns (serializedOf m)
        = buildColumnsAux ((serializedOf m).fields.filter columnFilter).length
            (if (serializedOf m).designatedTS.isSome then 1 else 0)
            (((serializedOf m).fields.filter columnFilter).filter
              (fun g => !g.tagOptions.designatedTS)) := by
  refine ⟨?_, ?_, buildColumns_eq_filtered _⟩
  · intro f t hd hv hz
    have hts : buildTimestamp (serializedOf m) = Int.repr t.unixNano := by
      simp [buildTimestamp, serializedOf_designatedTS, hd, hv, goValueIsValid, hz]
    exact ⟨hts, marshalLine_with_ts m _ hts (intRepr_ne_empty _)⟩
  · intro hd
    have hts : buildTimestamp (serializedOf m) = "" := by
      simp [buildTimestamp, serializedOf_designatedTS, hd]
    exact ⟨hts, marshalLine_no_ts m hts⟩

/-- C2 counterexample: the claim as stated says the trailing token is the raw
epoch-MICROsecond value; for a designated timestamp at 1500000ns (1500us) the
code renders the UnixNano value 1500000, not 1500. -/
theorem claim_C2_cex :
    mC2.designatedTS = some fC2ts
    ∧ fC2ts.value = .time { isZero := false, unixNano := 1500000 }
    ∧ goUnixMicro { isZero := false, unixNano := 1500000 } = 1500
    ∧ MarshalLine mC2 = "events 1500000\n"
    ∧ "events 1500000\n" ≠ "events 1500\n" := by
  refine ⟨rfl, rfl, by decide, ?_, by decide⟩
  have h1 : serializeValue (.time { isZero := false, unixNano := 1500000 }) "timestamp"
      = .ok "1500t" := rfl
  have hs : serializeFields mC2.fields = ([{ fC2ts with valueSerialized := "1500t" }], none) := by
    simp [serializeFields, mC2, fC2ts, goElem, goValueIsValid, goIsZero, h1]
  have hso : serializedOf mC2 = { mC2 with fields := [{ fC2ts with valueSerialized := "1500t" }] } := by
    simp only [serializedOf, Model.serialize, hs]
  rw [marshalLine_shape, hso]
  rfl

theorem claim_C2_witness :
    buildTimestamp (serializedOf mC2) = Int.repr (1500000 : Int)
    ∧ MarshalLine mC2 = (serializedOf mC2).tableName
        ++ (if buildSymbols (serializedOf mC2) ≠ "" then "," ++ buildSymbols (serializedOf mC2) else "")
        ++ (if buildColumns (serializedOf mC2) ≠ "" then " " ++ buildColumns (serializedOf mC2) else "")
        ++ " " ++ Int.repr (1500000 : Int) ++ "\n" :=
  (claim_C2 mC2).1 fC2ts { isZero := false, unixNano := 1500000 } rfl rfl rfl

/-- C3 (code bug): for a model whose designated-timestamp field is zero valued
(so it is dropped by the filter, yet the emission counter still starts at 1)
the column section is rendered with a missing comma between the pairs and a
trailing comma, instead of the comma-joined pairs the spec requires. -/
theorem claim_C3 :
    MarshalLine mC3 = "t a=1ib=2i,\n"
    ∧ "t a=1ib=2i,\n" ≠ "t a=1i,b=2i\n" := by
  refine ⟨?_, by decide⟩
  have h1 : serializeValue (.int32 1) "int" = .ok "1i" := rfl
  have h2 : serializeValue (.int32 2) "int" = .ok "2i" := rfl
  have hs : serializeFields mC3.fields
      = ([{ fC3ts with isZero := true },
          { fC3a with valueSerialized := "1i" },
          { fC3b with valueSerialized := "2i" }], none) := by
    simp [serializeFields, mC3, fC3ts, fC3a, fC3b, goElem, goValueIsValid, goIsZero, h1, h2]
  have hso : serializedOf mC3
      = { mC3 with fields := [{ fC3ts with isZero := true },
                              { fC3a with valueSerialized := "1i" },
                              { fC3b with valueSerialized := "2i" }] } := by
    simp only [serializedOf, Model.serialize, hs]
  rw [marshalLine_shape, hso]
  rfl

end QDB

namespace QDB

/-- C4: in a model that serializes without error, every field whose bound value
is zero after pointer indirection and whose directive lacks commitZeroValue is
excluded from both the symbol and the column filter (and hence from both
rendered sections, the symbol section being exactly the comma-join of its
filtered fields); the same field with commitZeroValue set passes the filter of
its own section even when zero. -/
theorem claim_C4 (m : Model) (f : Field)
    (hok : (Model.serialize m).2 = none)
    (hmem : f ∈ (serializedOf m).fields)
    (hz : zeroAfterElem f.value = true) :
    (f.tagOptions.commitZeroValue = false →
      f ∉ (serializedOf m).fields.filter symbolFilter
      ∧ f ∉ (serializedOf m).fields.filter columnFilter)
    ∧ (f.tagOptions.commitZeroValue = true →
      (f.qdbType = qSymbol → f ∈ (serializedOf m).fields.filter symbolFilter)
      ∧ (f.qdbType ≠ qSymbol → f ∈ (serializedOf m).fields.filter columnFilter))
    ∧ buildSymbols (serializedOf m)
        = joinWith "," goPair ((serializedOf m).fields.filter symbolFilter) := by
  have hzero : f.isZero = true :=
    serializeFields_mem_zero m.fields hok f hmem hz
  refine ⟨?_, ?_, buildSymbols_eq_joinWith _⟩
  · intro hc
    constructor
    · intro hmemf
      have hp := (List.mem_filter.mp hmemf).2
      simp [symbolFilter, hzero, hc] at hp
    · intro hmemf
      have hp := (List.mem_filter.mp hmemf).2
      simp [columnFilter, hzero, hc] at hp
  · intro hc
    constructor
    · intro hq
      refine List.mem_filter.mpr ⟨hmem, ?_⟩
      simp [symbolFilter, hzero, hc, hq]
    · intro hq
      refine List.mem_filter.mpr ⟨hmem, ?_⟩
      simp [columnFilter, hzero, hc, hq]

theorem claim_C4_witness :
    (fC4a ∉ (serializedOf mC4).fields.filter symbolFilter
      ∧ fC4a ∉ (serializedOf mC4).fields.filter columnFilter)
    ∧ fC4b ∈ (serializedOf mC4).fields.filter columnFilter := by
  have h0 : serializeValue (.int32 0) "int" = .ok "0i" := rfl
  have hok : (Model.serialize mC4).2 = none := by
    simp [Model.serialize, serializeFields, mC4, fC4a, fC4b, goElem, goValueIsValid, goIsZero, h0]
  have hfieldseq : (serializedOf mC4).fields = [fC4a, fC4b] := by
    simp [serializedOf, Model.serialize, serializeFields, mC4, fC4a, fC4b, goElem,
      goValueIsValid, goIsZero, h0]
  have hma : fC4a ∈ (serializedOf mC4).fields := by rw [hfieldseq]; exact List.mem_cons_self _ _
  have hmb : fC4b ∈ (serializedOf mC4).fields := by rw [hfieldseq]; simp
  have hza : zeroAfterElem fC4a.value = true := by
    simp [zeroAfterElem, fC4a, goElem, goValueIsValid, goIsZero]
  have hzb : zeroAfterElem fC4b.value = true := by
    simp [zeroAfterElem, fC4b, goElem, goValueIsValid, goIsZero]
  have ha := claim_C4 mC4 fC4a hok hma hza
  have hb := claim_C4 mC4 fC4b hok hmb hzb
  exact ⟨ha.1 rfl, (hb.2.1 rfl).2 (by decide)⟩

/-- C10: for every model whose designated-timestamp field is bound to anything
other than a non-zero time value - in particular an int64 epoch offset, which
the timestamp codec otherwise accepts with a trailing t - MarshalLine emits no
trailing timestamp token, and the column section is built with every
designatedTS-flagged field excluded, so the value appears nowhere in the
line. -/
theorem claim_C10 (m : Model) (f : Field)
    (hd : m.designatedTS = some f)
    (hnt : isNonZeroTimeValue f.value = false) :
    buildTimestamp (serializedOf m) = ""
    ∧ MarshalLine m = (serializedOf m).tableName
        ++ (if buildSymbols (serializedOf m) ≠ "" then "," ++ buildSymbols (serializedOf m) else "")
        ++ (if buildColumns (serializedOf m) ≠ "" then " " ++ buildColumns (serializedOf m) else "")
        ++ "\n"
    ∧ buildColumns (serializedOf m)
        = buildColumnsAux ((serializedOf m).fields.filter columnFilter).length
            (if (serializedOf m).designatedTS.isSome then 1 else 0)
            (((serializedOf m).fields.filter columnFilter).filter
              (fun g => !g.tagOptions.designatedTS))
    ∧ (∀ n : Int, serializeValue (.int64 n) qTimestamp = .ok (Int.repr n ++ "t")) := by
  have hts : buildTimestamp (serializedOf m) = "" := by
    cases hv : f.value
    case time t =>
      rw [hv] at hnt
      simp only [isNonZeroTimeValue] at hnt
      have ht : t.isZero = true := by
        cases hb : t.isZero
        · rw [hb] at hnt; simp at hnt
        · rfl
      simp [buildTimestamp, serializedOf_designatedTS, hd, hv, goValueIsValid, ht]
    all_goals simp [buildTimestamp, serializedOf_designatedTS, hd, hv, goValueIsValid]
  exact ⟨hts, marshalLine_no_ts m hts, buildColumns_eq_filtered _, fun n => rfl⟩

theorem claim_C10_witness :
    buildTimestamp (serializedOf mC10) = ""
    ∧ (∀ n : Int, serializeValue (.int64 n) qTimestamp = .ok (Int.repr n ++ "t")) :=
  ⟨(claim_C10 mC10 fC10ts rfl rfl).1, (claim_C10 mC10 fC10ts rfl rfl).2.2.2⟩

end QDB

namespace QDB

set_option linter.unnecessarySeqFocus false in
/-- C8 (amended): for the integer qdb types short, int and long, every runtime
value the codec accepts serializes to its decimal representation followed by
the trailing i marker; for the qdb type byte, the accepted value serializes to
the bare decimal representation with no marker. -/
theorem claim_C8 :
    (∀ (T : QuestDBType) (v : GoValue) (s : String),
      (T = qShort ∨ T = qInt ∨ T = qLong) →
      serializeValue v T = .ok s →
      ∃ n, intPayload v = some n ∧ s = Int.repr n ++ "i")
    ∧ (∀ (v : GoValue) (s : String), serializeValue v qByte = .ok s →
      ∃ n, intPayload v = some n ∧ s = Int.repr n) := by
  constructor
  · intro T v s hT hs
    rcases hT with h | h | h <;> subst h <;> cases v <;>
      simp [serializeValue, qBoolean, qByte, qShort, qChar, qInt, qFloat, qSymbol, qString,
        qJSON, qLong, qDate, qTimestamp, qDouble, qBinary] at hs <;>
      exact ⟨_, rfl, hs.symm⟩
  · intro v s hs
    cases v <;>
      simp [serializeValue, qBoolean, qByte, qShort, qChar, qInt, qFloat, qSymbol, qString,
        qJSON, qLong, qDate, qTimestamp, qDouble, qBinary] at hs <;>
      exact ⟨_, rfl, hs.symm⟩

/-- C8 counterexample: the claim as stated includes byte among the types whose
text carries a trailing i marker, but the codec serializes a byte value as bare
decimal digits. -/
theorem claim_C8_cex :
    serializeValue (.int8 5) qByte = .ok "5"
    ∧ "5" ≠ Int.repr 5 ++ "i" := ⟨rfl, by decide⟩

theorem claim_C8_witness :
    (∃ n, intPayload (.int16 7) = some n ∧ "7i" = Int.repr n ++ "i")
    ∧ (∃ n, intPayload (.int8 5) = some n ∧ "5" = Int.repr n) :=
  ⟨claim_C8.1 qShort (.int16 7) "7i" (Or.inl rfl) rfl,
   claim_C8.2 (.int8 5) "5" rfl⟩

/-- C6: for a record type whose flattened field list carries two or more
designated-timestamp flags, NewModel fails with the duplicate designated
timestamp error; with at most one such flag NewModel does not fail for this
reason (it succeeds whenever the remaining serialization pass succeeds). -/
theorem claim_C6 (tn : String) (cto : Option CreateTableOptions)
    (fs : List (String × String × GoValue)) (fields : List Field)
    (hp : structToFieldSlice "" "" fs = .ok fields) :
    (2 ≤ (fields.filter (fun f => f.tagOptions.designatedTS)).length →
      NewModel tn cto fs = .error "multiple designated timestamp fields found")
    ∧ ((fields.filter (fun f => f.tagOptions.designatedTS)).length ≤ 1 →
      ∀ fields2 : List Field, serializeFields fields = (fields2, none) →
      ∃ m, NewModel tn cto fs = .ok m) := by
  constructor
  · intro h2
    rw [NewModel, hp]
    simp only [scan_dup_error fields none [] (Or.inr h2)]
  · intro h1 fields2 hsf
    rcases scan_le_one_ok fields none [] (Or.inl ⟨rfl, h1⟩) with ⟨d, i, hscan⟩
    refine ⟨{ tableName := tn, fields := fields2, indexFields := i,
              designatedTS := d, createTableOptions := cto }, ?_⟩
    rw [NewModel, hp]
    simp only [hscan, Model.serialize, hsf]

theorem claim_C6_witness :
    NewModel "t" none c6Input = .error "multiple designated timestamp fields found" := by
  have hsA : goSplitStr ';' "a;timestamp;designatedTS:true"
      = ["a", "timestamp", "designatedTS:true"] := rfl
  have hsB : goSplitStr ';' "b;timestamp;designatedTS:true"
      = ["b", "timestamp", "designatedTS:true"] := rfl
  have hoA : goSplitStr ':' "designatedTS:true" = ["designatedTS", "true"] := rfl
  have hp : structToFieldSlice "" "" c6Input = .ok
      [{ isZero := false, name := "A", qdbName := "a", qdbType := "timestamp",
         value := .time { isZero := false, unixNano := 5 }, valueSerialized := "",
         tagOptions := { designatedTS := true } },
       { isZero := false, name := "B", qdbName := "b", qdbType := "timestamp",
         value := .time { isZero := false, unixNano := 6 }, valueSerialized := "",
         tagOptions := { designatedTS := true } }] := by
    simp [c6Input, structToFieldSlice, mkParsedField, hsA, hsB, hoA, ensureOptionsAreValid,
      makeTagOptions, getOption, isValidAndSupportedQuestDBType, supportedQDBTypes,
      qBoolean, qByte, qShort, qChar, qInt, qFloat, qSymbol, qString, qJSON, qLong,
      qDate, qTimestamp, qDouble, qBinary]
  exact (claim_C6 "t" none c6Input _ hp).1 (by decide)

end QDB

namespace QDB

theorem c5_part1 (fld : Field) (opts : List String) (o : TagOptions)
    (hidx : getOption opts "index" = "true") (hmk : makeTagOptions fld opts = .ok o) :
    o.index = true := by
  by_cases hd : getOption opts "designatedTS" = "true" ∧ fld.qdbType ≠ qTimestamp
  · rw [makeTagOptions, if_pos hd] at hmk
    exact absurd hmk (by simp)
  · rw [makeTagOptions, if_neg hd] at hmk
    injection hmk with h
    subst h
    simp [hidx]

theorem newModel_ok_inversion (tn : String) (cto : Option CreateTableOptions)
    (fs : List (String × String × GoValue)) (m : Model)
    (h : NewModel tn cto fs = .ok m) :
    ∃ fields d i, structToFieldSlice "" "" fs = .ok fields
      ∧ scanDesignatedAndIndex fields none [] = .ok (d, i)
      ∧ (serializeFields fields).2 = none
      ∧ m = { tableName := tn, fields := (serializeFields fields).1, indexFields := i,
              designatedTS := d, createTableOptions := cto } := by
  rw [NewModel] at h
  split at h
  · exact absurd h (by simp)
  · next fields heqparse =>
    split at h
    · exact absurd h (by simp)
    · next di heqscan =>
      simp only [Model.serialize] at h
      split at h
      · next m2 heqser =>
        refine ⟨fields, di.1, di.2, heqparse, by rw [heqscan], ?_, ?_⟩
        · have h2 := congrArg Prod.snd heqser
          simpa using h2
        · have h1 := congrArg Prod.fst heqser
          simp only at h1
          injection h with hm
          subst hm
          simp [← h1]
      · exact absurd h (by simp)

end QDB

namespace QDB

/-- C5: option parsing records index:true as the indexed flag (the flag's
declaration and parsing are modelled from the spec, since src/tag.go omits
them while src/model.go consumes the flag), model construction collects
exactly the indexed fields in declaration order (witnessed through their wire
column names, which the serialization pass never changes), and the generated
create table statement carries an index(wire-column-name) clause for each of
them. -/
theorem claim_C5 :
    (∀ (fld : Field) (opts : List String) (o : TagOptions),
      getOption opts "index" = "true" → makeTagOptions fld opts = .ok o → o.index = true)
    ∧ (∀ (tn : String) (cto : Option CreateTableOptions)
        (fs : List (String × String × GoValue)) (m : Model) (f : Field),
      NewModel tn cto fs = .ok m → f ∈ m.fields → f.tagOptions.index = true →
      (m.indexFields.map (fun g => g.qdbName)
          = (m.fields.filter (fun g => g.tagOptions.index)).map (fun g => g.qdbName))
      ∧ f.qdbName ∈ m.indexFields.map (fun g => g.qdbName)
      ∧ "index(" ++ f.qdbName ++ ")" ∈ m.indexFields.map idxItem
      ∧ CreateTableIfNotExistStatement m
          = "CREATE TABLE IF NOT EXISTS \"" ++ m.tableName ++ "\" ( "
            ++ ddlColsAux m.fields.length 0 m.fields
            ++ (if m.designatedTS.isNone then ", \"timestamp\" timestamp" else "")
            ++ " ) "
            ++ (", " ++ (joinWith ", " idxItem m.indexFields ++ " "))
            ++ (match m.designatedTS with
                | none => "timestamp(timestamp) "
                | some g => "timestamp(" ++ g.qdbName ++ ") ")
            ++ (match m.createTableOptions with
                | some o => createTableOptionsString o
                | none => "")
            ++ ";") := by
  constructor
  · exact c5_part1
  · intro tn cto fs m f hnew hmem hidx
    obtain ⟨fields, d, i, hparse, hscan, hsnd, hm⟩ := newModel_ok_inversion tn cto fs m hnew
    have hif : m.indexFields = i := by rw [hm]
    have hff : m.fields = (serializeFields fields).1 := by rw [hm]
    have hi : i = fields.filter (fun g => g.tagOptions.index) := by
      simpa using scan_acc_index fields none [] d i hscan
    have hnames := serializeFields_index_names fields
    have h1 : m.indexFields.map (fun g => g.qdbName)
        = (m.fields.filter (fun g => g.tagOptions.index)).map (fun g => g.qdbName) := by
      rw [hif, hff, hi, hnames]
    have hmemf : f ∈ m.fields.filter (fun g => g.tagOptions.index) :=
      List.mem_filter.mpr ⟨hmem, hidx⟩
    have h2 : f.qdbName ∈ m.indexFields.map (fun g => g.qdbName) := by
      rw [h1]
      exact List.mem_map_of_mem _ hmemf
    have h3 : "index(" ++ f.qdbName ++ ")" ∈ m.indexFields.map idxItem := by
      rcases List.mem_map.mp h2 with ⟨g, hg, hgn⟩
      exact List.mem_map.mpr ⟨g, hg, by simp [idxItem, hgn]⟩
    have hine : m.indexFields ≠ [] := by
      intro hnil
      rw [hnil] at h2
      simp at h2
    have hlen : m.indexFields.length > 0 := List.length_pos.mpr hine
    refine ⟨h1, h2, h3, ?_⟩
    rw [CreateTableIfNotExistStatement, if_pos hlen,
      indexClauseAux_eq_joinWith m.indexFields 0 m.indexFields.length hine (by omega)]

end QDB

namespace QDB

theorem c5_model : NewModel "t" none c5Input = .ok mC5 := by
  have hsA : goSplitStr ';' "a;symbol;index:true" = ["a", "symbol", "index:true"] := rfl
  have hsB : goSplitStr ';' "b;int" = ["b", "int"] := rfl
  have hoA : goSplitStr ':' "index:true" = ["index", "true"] := rfl
  have hp : structToFieldSlice "" "" c5Input = .ok [fC5a, fC5b] := by
    simp [c5Input, structToFieldSlice, mkParsedField, hsA, hsB, hoA, ensureOptionsAreValid,
      makeTagOptions, getOption, fC5a, fC5b, isValidAndSupportedQuestDBType, supportedQDBTypes,
      qBoolean, qByte, qShort, qChar, qInt, qFloat, qSymbol, qString, qJSON, qLong,
      qDate, qTimestamp, qDouble, qBinary]
  have hscan : scanDesignatedAndIndex [fC5a, fC5b] none [] = .ok (none, [fC5a]) := by
    simp [scanDesignatedAndIndex, fC5a, fC5b]
  have hsf : serializeFields [fC5a, fC5b]
      = ([{ fC5a with valueSerialized := "x" }, { fC5b with valueSerialized := "2i" }], none) := by
    have h1 : serializeValue (.str "x") "symbol" = .ok "x" := rfl
    have h2 : serializeValue (.int32 2) "int" = .ok "2i" := rfl
    simp [serializeFields, fC5a, fC5b, goElem, goValueIsValid, goIsZero, h1, h2]
  rw [NewModel, hp]
  simp only [hscan, Model.serialize, hsf]
  rfl

theorem claim_C5_witness :
    (mC5.indexFields.map (fun g => g.qdbName)
        = (mC5.fields.filter (fun g => g.tagOptions.index)).map (fun g => g.qdbName))
    ∧ ({ fC5a with valueSerialized := "x" } : Field).qdbName
        ∈ mC5.indexFields.map (fun g => g.qdbName)
    ∧ "index(" ++ ({ fC5a with valueSerialized := "x" } : Field).qdbName ++ ")"
        ∈ mC5.indexFields.map idxItem
    ∧ ({ index := true } : TagOptions).index = true := by
  have h := (claim_C5.2 "t" none c5Input mC5 { fC5a with valueSerialized := "x" }
    c5_model (by simp [mC5]) rfl)
  exact ⟨h.1, h.2.1, h.2.2.1,
    claim_C5.1 fC5a ["index:true"] { index := true } rfl rfl⟩

end QDB

namespace QDB

/-- C9: for a field whose annotation is not the "-" sentinel, schema
derivation fails with an error whenever the annotation splits on ";" into
fewer than two segments, and also whenever some segment after the second does
not split on ":" into exactly two parts. -/
theorem claim_C9 (namePre colPre fname tagStr : String) (v : GoValue)
    (rest : List (String × String × GoValue)) (hdash : tagStr ≠ "-") :
    ((goSplitStr ';' tagStr).length < 2 →
      ∃ e, structToFieldSlice namePre colPre ((fname, tagStr, v) :: rest) = .error e)
    ∧ (∀ seg ∈ (goSplitStr ';' tagStr).drop 2, (goSplitStr ':' seg).length ≠ 2 →
      ∃ e, structToFieldSlice namePre colPre ((fname, tagStr, v) :: rest) = .error e) := by
  constructor
  · intro hlen
    have h : structToFieldSlice namePre colPre ((fname, tagStr, v) :: rest)
        = .error (namePre ++ fname
            ++ ": invalid tag length (expected 2 to 3 semicolon delimited items but got "
            ++ Nat.repr (goSplitStr ';' tagStr).length ++ ")") := by
      rw [structToFieldSlice.eq_def]
      simp only []
      rw [if_neg hdash, if_pos hlen]
    exact ⟨_, h⟩
  · intro seg hseg hbad
    have hne : (goSplitStr ';' tagStr).drop 2 ≠ [] := List.ne_nil_of_mem hseg
    have hd2 : ((goSplitStr ';' tagStr).drop 2).length = (goSplitStr ';' tagStr).length - 2 :=
      List.length_drop 2 (goSplitStr ';' tagStr)
    have hdpos : 0 < ((goSplitStr ';' tagStr).drop 2).length := List.length_pos.mpr hne
    have hgt : (goSplitStr ';' tagStr).length > 2 := by omega
    rcases ensure_bad_mem ((goSplitStr ';' tagStr).drop 2) seg hseg hbad with ⟨e, he⟩
    have h : structToFieldSlice namePre colPre ((fname, tagStr, v) :: rest)
        = .error (namePre ++ fname ++ ": invalid tag: " ++ e) := by
      rw [structToFieldSlice.eq_def]
      simp only []
      rw [if_neg hdash, if_neg (by omega : ¬ (goSplitStr ';' tagStr).length < 2),
        if_pos hgt, he]
    exact ⟨_, h⟩

end QDB

namespace QDB

theorem stfs_nil_eq (np cp : String) : structToFieldSlice np cp [] = .ok [] := by
  rw [structToFieldSlice.eq_def]

theorem stfs_embedded_step (namePre colPre fname tagStr : String)
    (sfs rest : List (String × String × GoValue)) (opts : TagOptions)
    (hdash : tagStr ≠ "-")
    (hlen : 2 < (goSplitStr ';' tagStr).length)
    (htype : (goSplitStr ';' tagStr).getD 1 "" = "embedded")
    (hens : ensureOptionsAreValid ((goSplitStr ';' tagStr).drop 2) = .ok ())
    (hmk : makeTagOptions (mkParsedField namePre colPre fname tagStr (.strct sfs))
        ((goSplitStr ';' tagStr).drop 2) = .ok opts)
    (hpre : opts.embPre ≠ "") :
    structToFieldSlice namePre colPre ((fname, tagStr, .strct sfs) :: rest)
      = (structToFieldSlice (namePre ++ fname ++ ".") opts.embPre sfs).bind
          (fun embedded => (structToFieldSlice namePre colPre rest).map
              (fun tail => embedded ++ tail)) := by
  rw [structToFieldSlice.eq_def]
  simp only []
  rw [if_neg hdash, if_neg (by omega : ¬ (goSplitStr ';' tagStr).length < 2),
    if_pos hlen, hens, hmk, htype]
  simp only [mkParsedField, subFieldsOf]
  cases h1 : structToFieldSlice (namePre ++ fname ++ ".") opts.embPre sfs with
  | error e => simp [hpre, Except.bind]
  | ok embedded =>
    cases h2 : structToFieldSlice namePre colPre rest with
    | error e => simp [hpre, Except.bind, Except.map]
    | ok tail => simp [hpre, Except.bind, Except.map]

theorem stfs_leaf_step (namePre colPre fname tagStr : String) (v : GoValue)
    (rest : List (String × String × GoValue))
    (hdash : tagStr ≠ "-")
    (hlen : (goSplitStr ';' tagStr).length = 2)
    (htype : (goSplitStr ';' tagStr).getD 1 "" ≠ "embedded")
    (hvalid : isValidAndSupportedQuestDBType ((goSplitStr ';' tagStr).getD 1 "") = true) :
    structToFieldSlice namePre colPre ((fname, tagStr, v) :: rest)
      = (structToFieldSlice namePre colPre rest).map
          (fun tail => mkParsedField namePre colPre fname tagStr v :: tail) := by
  rw [structToFieldSlice.eq_def]
  simp only []
  rw [if_neg hdash, if_neg (by omega : ¬ (goSplitStr ';' tagStr).length < 2),
    if_neg (by omega : ¬ (goSplitStr ';' tagStr).length > 2)]
  simp at htype hvalid
  cases h2 : structToFieldSlice namePre colPre rest with
  | error e => simp [htype, hvalid, mkParsedField, Except.map]
  | ok tail => simp [htype, hvalid, mkParsedField, Except.map]

/-- C7 (amended): a field of directive type embedded with declared prefix p
splices the recursively built sub-fields in place and in order, the recursion
receiving the dotted internal-name prefix (field name plus a dot appended to
the current name prefix) but - unlike what the claim states for nested
embeddings - p ALONE as the wire-column prefix, the enclosing column prefix
being dropped; each direct non-embedded sub-field contributes a field whose
internal name is the accumulated dotted prefix plus its Go name and whose wire
name is the current column prefix plus the tag's wire segment (see
mkParsedField). -/
theorem claim_C7 :
    (∀ (namePre colPre fname tagStr : String) (sfs rest : List (String × String × GoValue))
        (opts : TagOptions),
      tagStr ≠ "-" →
      2 < (goSplitStr ';' tagStr).length →
      (goSplitStr ';' tagStr).getD 1 "" = "embedded" →
      ensureOptionsAreValid ((goSplitStr ';' tagStr).drop 2) = .ok () →
      makeTagOptions (mkParsedField namePre colPre fname tagStr (.strct sfs))
          ((goSplitStr ';' tagStr).drop 2) = .ok opts →
      opts.embPre ≠ "" →
      structToFieldSlice namePre colPre ((fname, tagStr, .strct sfs) :: rest)
        = (structToFieldSlice (namePre ++ fname ++ ".") opts.embPre sfs).bind
            (fun embedded => (structToFieldSlice namePre colPre rest).map
                (fun tail => embedded ++ tail)))
    ∧ (∀ (namePre colPre fname tagStr : String) (v : GoValue)
        (rest : List (String × String × GoValue)),
      tagStr ≠ "-" →
      (goSplitStr ';' tagStr).length = 2 →
      (goSplitStr ';' tagStr).getD 1 "" ≠ "embedded" →
      isValidAndSupportedQuestDBType ((goSplitStr ';' tagStr).getD 1 "") = true →
      structToFieldSlice namePre colPre ((fname, tagStr, v) :: rest)
        = (structToFieldSlice namePre colPre rest).map
            (fun tail => mkParsedField namePre colPre fname tagStr v :: tail)) :=
  ⟨stfs_embedded_step, stfs_leaf_step⟩

end QDB

namespace QDB

/-- C7 counterexample: in the doubly nested embedding X (prefix a_) containing
Y (prefix b_) containing Z (wire z), the flattened field gets wire name b_z -
only the innermost declared prefix - while the claim's recursive reading
predicts a_b_z; the internal name does accumulate to X.Y.Z. -/
theorem claim_C7_cex :
    structToFieldSlice "" "" c7Input
      = .ok [{ isZero := false, name := "X.Y.Z", qdbName := "b_z", qdbType := "long",
               value := .int64 1, valueSerialized := "", tagOptions := {} }]
    ∧ ("b_z" : String) ≠ "a_b_z" := by
  refine ⟨?_, by decide⟩
  have hz : structToFieldSlice "X.Y." "b_" [("Z", "z;long", .int64 1)]
      = .ok [mkParsedField "X.Y." "b_" "Z" "z;long" (.int64 1)] := by
    rw [stfs_leaf_step "X.Y." "b_" "Z" "z;long" (.int64 1) []
      (by decide) (by decide) (by decide) (by decide), stfs_nil_eq]
    rfl
  have hy : structToFieldSlice "X." "a_"
      [("Y", "y;embedded;embeddedPrefix:b_", .strct [("Z", "z;long", .int64 1)])]
      = .ok [mkParsedField "X.Y." "b_" "Z" "z;long" (.int64 1)] := by
    rw [stfs_embedded_step "X." "a_" "Y" "y;embedded;embeddedPrefix:b_"
      [("Z", "z;long", .int64 1)] [] { embPre := "b_" }
      (by decide) (by decide) rfl rfl rfl (by decide)]
    rw [show ("X." ++ "Y" ++ "." : String) = "X.Y." from rfl]
    rw [show ({ embPre := "b_" } : TagOptions).embPre = "b_" from rfl]
    rw [hz, stfs_nil_eq]
    rfl
  have hx : structToFieldSlice "" "" c7Input
      = .ok [mkParsedField "X.Y." "b_" "Z" "z;long" (.int64 1)] := by
    rw [show c7Input = [("X", "x;embedded;embeddedPrefix:a_",
        GoValue.strct [("Y", "y;embedded;embeddedPrefix:b_",
          GoValue.strct [("Z", "z;long", GoValue.int64 1)])])] from rfl]
    rw [stfs_embedded_step "" "" "X" "x;embedded;embeddedPrefix:a_"
      [("Y", "y;embedded;embeddedPrefix:b_", .strct [("Z", "z;long", .int64 1)])] []
      { embPre := "a_" } (by decide) (by decide) rfl rfl rfl (by decide)]
    rw [show ("" ++ "X" ++ "." : String) = "X." from rfl]
    rw [show ({ embPre := "a_" } : TagOptions).embPre = "a_" from rfl]
    rw [hy, stfs_nil_eq]
    rfl
  rw [hx]
  rfl

end QDB

namespace QDB

theorem claim_C7_witness :
    structToFieldSlice "" "" [("X", "x;embedded;embeddedPrefix:a_",
        .strct [("Z", "z;long", .int64 1)])]
      = (structToFieldSlice "X." "a_" [("Z", "z;long", .int64 1)]).bind
          (fun embedded => (structToFieldSlice "" "" ([] : List (String × String × GoValue))).map
              (fun tail => embedded ++ tail))
    ∧ structToFieldSlice "X." "a_" [("Z", "z;long", .int64 1)]
        = (structToFieldSlice "X." "a_" ([] : List (String × String × GoValue))).map
            (fun tail => mkParsedField "X." "a_" "Z" "z;long" (.int64 1) :: tail) :=
  ⟨claim_C7.1 "" "" "X" "x;embedded;embeddedPrefix:a_" [("Z", "z;long", .int64 1)] []
      { embPre := "a_" } (by decide) (by decide) rfl rfl rfl (by decide),
   claim_C7.2 "X." "a_" "Z" "z;long" (.int64 1) [] (by decide) (by decide) (by decide) (by decide)⟩

theorem claim_C9_witness :
    (∃ e, structToFieldSlice "" "" [("A", "a", GoValue.int32 1)] = .error e)
    ∧ (∃ e, structToFieldSlice "" "" [("B", "b;int;bad", GoValue.int32 1)] = .error e) :=
  ⟨(claim_C9 "" "" "A" "a" (.int32 1) [] (by decide)).1 (by decide),
   (claim_C9 "" "" "B" "b;int;bad" (.int32 1) [] (by decide)).2 "bad" (by decide) (by decide)⟩

end QDB
